import Mathlib

/-!
Shallow embedding of the decentralized data-request coordination and
settlement engine ("Coordinator") described by the repository's
specification and exercised by its test suite.  The repository ships only
the Coordinator's test suite; the contract bodies (`Coordinator.sol`,
`MeanAggregator.sol`) are not part of the sources, so every operation
below is modelled from the specification's words, with the test suite
fixing the concrete observable behavior (error messages, payment split
`555555555555555555 / 333333333333333333 / 111111111111111111` for a
`10^18` payment, mean of large `uint256` values, etc.).
-/

namespace Chainlink

/-- Word size of the on-chain unsigned integers (`uint256`). -/
def U256 : Nat := 2 ^ 256

/-- Account / contract addresses, modelled as natural numbers. -/
abbrev Address := Nat

/-- Modelled from the spec: a service agreement binds a payment amount, a
request-expiry window, a hard deadline `endAt`, the oracle set, a request
digest and the aggregator selection (`ServiceAgreement` of §3). -/
structure ServiceAgreement where
  payment : Nat
  expiration : Nat
  endAt : Nat
  oracles : List Address
  requestDigest : Nat
  aggregator : Address
  deriving Repr, DecidableEq

/-- Modelled from the spec: a signature is abstracted as the pair of the
signer it recovers to and the digest it was produced over (the Signature
Verifier component of §2 is pure recovery, no state). -/
structure OracleSignature where
  signer : Address
  digest : Nat
  deriving Repr, DecidableEq

/-- Modelled from the spec: signature recovery — a signature recovers its
signer exactly over the digest it signed, and recovers nothing (an
unrelated identity) over any other digest. -/
def recoverSigner (digest : Nat) (sig : OracleSignature) : Option Address :=
  if sig.digest = digest then some sig.signer else none

/-- Deterministic accumulator used by the content-addressed hash. -/
def hashCombine (acc x : Nat) : Nat := (acc * 1000003 + x + 1) % U256

/-- Modelled from the spec: deterministic content hash of a field list
(`id = deterministic hash of all other fields`, §3). -/
def hashList (l : List Nat) : Nat := l.foldl hashCombine 7

/-- Modelled from the spec: the canonical encoding of the agreement's
content that is handed to the on-chain `getId`. -/
def encodeServiceAgreement (sa : ServiceAgreement) : List Nat :=
  [sa.payment, sa.expiration, sa.endAt] ++ sa.oracles ++
    [sa.oracles.length, sa.requestDigest, sa.aggregator]

/-- Modelled from the spec: the Coordinator's on-chain `getId`, hashing the
encoded agreement payload. -/
def getId (data : List Nat) : Nat := hashList data

/-- Modelled from the spec: the off-chain service-agreement id computed
by the oracle client from the agreement's content. -/
def generateSAID (sa : ServiceAgreement) : Nat :=
  hashList (encodeServiceAgreement sa)

/-- Request lifecycle states of §3: *Open* until finalized, *Fulfilled*
terminal. -/
inductive RequestStatus where
  | opened
  | fulfilled
  deriving Repr, DecidableEq

/-- A report accepted for a request: reporting node plus reported value.
The accepted order is the position in the request's report list. -/
structure Report where
  node : Address
  value : Nat
  deriving Repr, DecidableEq

/-- Modelled from the spec: an open data request (`Request` of §3). -/
structure OracleRequest where
  said : Nat
  callbackAddr : Address
  callbackFn : Nat
  requester : Address
  payment : Nat
  status : RequestStatus
  reports : List Report
  deriving Repr, DecidableEq

/-- Structured errors of the spec's §7 taxonomy. -/
inductive CoordError where
  | invalidSignature
  | expiredAgreement
  | alreadyExists
  | unknownAgreement
  | insufficientPayment
  | unknownRequest
  | requestClosed
  | unauthorizedNode
  | duplicateReport
  | insufficientBalance
  | callbackToToken
  deriving Repr, DecidableEq

/-- Modelled from the spec: the Coordinator's whole state — agreement
store, request store, the settlement ledger's withdrawable and escrowed
balances, and the per-coordinator request counter. -/
structure Coordinator where
  linkToken : Address
  agreements : Nat → Option ServiceAgreement
  requests : Nat → Option OracleRequest
  withdrawable : Address → Nat
  escrowed : Address → Nat
  requestCounter : Nat

/-- Ledger helper: add `amt` to account `a`. -/
def credit (f : Address → Nat) (a : Address) (amt : Nat) : Address → Nat :=
  fun x => if x = a then f x + amt else f x

/-- Ledger helper: remove `amt` from account `a` (truncated subtraction;
callers only use it under a sufficient-balance guarantee). -/
def debit (f : Address → Nat) (a : Address) (amt : Nat) : Address → Nat :=
  fun x => if x = a then f x - amt else f x

/-- Store helper: record request `req` under id `rid`. -/
def setReq (f : Nat → Option OracleRequest) (rid : Nat) (req : OracleRequest) :
    Nat → Option OracleRequest :=
  fun r => if r = rid then some req else f r

/-- Modelled from the spec: pairwise validation that each listed oracle's
signature recovers that oracle's identity over the agreement id. -/
def validSignatures (said : Nat) : List Address → List OracleSignature → Bool
  | [], [] => true
  | o :: os, g :: gs =>
      decide (recoverSigner said g = some o) && validSignatures said os gs
  | _, _ => false

/-- Modelled from the spec: `initiateServiceAgreement` (the Agreement
Registry's `register`, §4.1): computes the content-addressed id, rejects
any unmatched oracle signature (`InvalidSignature`) and any `endAt` not
strictly in the future (`ExpiredAgreement`), is idempotent on identical
content, and defensively rejects an id collision with different content. -/
def initiateServiceAgreement (s : Coordinator) (sa : ServiceAgreement)
    (sigs : List OracleSignature) (now : Nat) :
    Except CoordError (Coordinator × Nat) :=
  let said := generateSAID sa
  if validSignatures said sa.oracles sigs then
    if now < sa.endAt then
      match s.agreements said with
      | some existing =>
          if existing = sa then .ok (s, said) else .error .alreadyExists
      | none =>
          .ok ({ s with
                  agreements := fun i => if i = said then some sa else s.agreements i },
               said)
    else .error .expiredAgreement
  else .error .invalidSignature

/-- Modelled from the spec: derived request id — agreement id combined with
the monotonically incrementing per-coordinator counter (§3). -/
def requestId (said counter : Nat) : Nat := hashList [said, counter]

/-- Modelled from the spec: opening a request (§4.3 `open`), reached only
through the payment token's `transferAndCall`; `amount` is the amount the
token ledger actually transferred and is the authoritative payment figure.
The callback target may not be the payment token itself (the test
"cannot call functions on the LINK token through callbacks"). -/
def oracleRequest (s : Coordinator) (sender : Address) (amount : Nat)
    (said : Nat) (callbackAddr : Address) (callbackFn : Nat) :
    Except CoordError (Coordinator × Nat) :=
  if callbackAddr = s.linkToken then .error .callbackToToken
  else
    match s.agreements said with
    | none => .error .unknownAgreement
    | some sa =>
        if amount < sa.payment then .error .insufficientPayment
        else
          let rid := requestId said s.requestCounter
          .ok ({ s with
                  requests := setReq s.requests rid
                    { said := said, callbackAddr := callbackAddr,
                      callbackFn := callbackFn, requester := sender,
                      payment := amount, status := .opened, reports := [] },
                  escrowed := credit s.escrowed sender amount,
                  requestCounter := s.requestCounter + 1 },
               rid)

/-- Running state of the mean aggregation strategy: the average so far and
the remainder carried between reports. -/
structure MeanAcc where
  average : Nat
  remainder : Nat
  deriving Repr, DecidableEq

/-- Modelled from the spec: one incremental step of the overflow-free mean
(§4.2) — fold each value's quotient into the average and carry its
residue through the remainder, an equivalent incremental formula to the
running-mean update that never forms the full sum. -/
def meanStep (n : Nat) (acc : MeanAcc) (v : Nat) : MeanAcc :=
  { average := acc.average + v / n + (acc.remainder + v % n) / n
    remainder := (acc.remainder + v % n) % n }

/-- Run the mean strategy over the accepted reports in order. -/
def meanRun (n : Nat) (vs : List Nat) : MeanAcc :=
  vs.foldl (meanStep n) ⟨0, 0⟩

/-- Final value produced by the mean strategy. -/
def meanValue (n : Nat) (vs : List Nat) : Nat := (meanRun n vs).average

/-- Decidable check that every intermediate quantity formed by the mean
strategy along a run stays below `2^256`: at each step both the carried
remainder sum and the updated average must be representable. -/
def stepsBoundedFrom (n : Nat) (acc : MeanAcc) : List Nat → Bool
  | [] => true
  | v :: vs =>
      decide (acc.remainder + v % n < U256) &&
        decide (acc.average + v / n + (acc.remainder + v % n) / n < U256) &&
        stepsBoundedFrom n (meanStep n acc v) vs

/-- No intermediate computation of a full mean run overflows `uint256`. -/
def meanNoOverflow (n : Nat) (vs : List Nat) : Bool :=
  stepsBoundedFrom n ⟨0, 0⟩ vs

/-- Modelled from the spec: order weight of the payment split (§4.4) —
the node whose report was accepted at 1-based rank `r` weighs
`2*(n-r) + 1` out of `n^2` parts. -/
def weight (n r : Nat) : Nat := 2 * (n - r) + 1

/-- Share of `totalPayment` owed to the rank-`r` node out of `n`. -/
def oracleShare (totalPayment n r : Nat) : Nat :=
  totalPayment * weight n r / (n * n)

/-- Sum of the first `k` ranks' shares. -/
def sumSharesAux (P n : Nat) : Nat → Nat
  | 0 => 0
  | k + 1 => sumSharesAux P n k + oracleShare P n (k + 1)

/-- Total amount the split actually pays out of `totalPayment`. -/
def sumShares (P n : Nat) : Nat := sumSharesAux P n n

/-- Modelled from the spec: credit each reporting node its order-weighted
share, walking the accepted reports from rank `r` upward (§4.4
`distribute`). -/
def applyShares (w : Address → Nat) (P n r : Nat) :
    List Report → (Address → Nat)
  | [] => w
  | rep :: rest =>
      applyShares (credit w rep.node (oracleShare P n r)) P n (r + 1) rest

/-- Outcome of one report submission, as observed by the reporting node:
whether aggregation finalized, the final value handed to the consumer
callback, whether the callback was invoked, and whether that (untrusted)
callback reported success. -/
structure FulfillOutcome where
  finalized : Bool
  finalValue : Option Nat
  callbackInvoked : Bool
  callbackSucceeded : Bool
  deriving Repr, DecidableEq

/-- Modelled from the spec: the state transition of `submitReport` (§4.3),
computed before — and therefore independent of — the consumer callback:
validates the request and the reporting node, rejects duplicates, appends
the accepted report, and on the `n`-th acceptance commits the transition
to *Fulfilled*, the mean final value, and the settlement ledger's
order-weighted payment distribution (remainder staying in escrow). -/
def fulfillCore (s : Coordinator) (rid : Nat) (oracle : Address) (value : Nat) :
    Except CoordError (Coordinator × Bool × Option Nat) :=
  match s.requests rid with
  | none => .error .unknownRequest
  | some req =>
      if req.status = .fulfilled then .error .requestClosed
      else
        match s.agreements req.said with
        | none => .error .unknownAgreement
        | some sa =>
            if oracle ∈ sa.oracles then
              if ∃ rep ∈ req.reports, rep.node = oracle then
                .error .duplicateReport
              else
                let newReports := req.reports ++ [Report.mk oracle value]
                let n := sa.oracles.length
                if newReports.length = n then
                  let fv := meanValue n (newReports.map Report.value)
                  .ok ({ s with
                          requests := setReq s.requests rid
                            { req with reports := newReports,
                                       status := .fulfilled },
                          withdrawable :=
                            applyShares s.withdrawable req.payment n 1 newReports,
                          escrowed :=
                            debit s.escrowed req.requester (sumShares req.payment n) },
                       true, some fv)
                else
                  .ok ({ s with
                          requests := setReq s.requests rid
                            { req with reports := newReports } },
                       false, none)
            else .error .unauthorizedNode

/-- Modelled from the spec: `fulfillOracleRequest` — commit the report's
state transition, then (only on finalization) invoke the untrusted
consumer callback, whose success flag `cb` is recorded in the outcome but
can never alter the committed state. -/
def fulfillOracleRequest (s : Coordinator) (rid : Nat) (oracle : Address)
    (value : Nat) (cb : Bool) : Except CoordError (Coordinator × FulfillOutcome) :=
  (fulfillCore s rid oracle value).map fun p =>
    (p.1, { finalized := p.2.1, finalValue := p.2.2,
            callbackInvoked := p.2.1, callbackSucceeded := p.2.1 && cb })

/-- Modelled from the spec: the conceptual cancellation path (§3) — only
an *Open* request can be cancelled; a *Fulfilled* request is terminal. -/
def cancelOracleRequest (s : Coordinator) (rid : Nat) :
    Except CoordError Coordinator :=
  match s.requests rid with
  | none => .error .unknownRequest
  | some req =>
      if req.status = .fulfilled then .error .requestClosed
      else
        .ok { s with
                requests := fun r => if r = rid then none else s.requests r,
                escrowed := debit s.escrowed req.requester req.payment,
                withdrawable := credit s.withdrawable req.requester req.payment }

/-- Modelled from the spec: `withdraw(account, amount)` (§4.4) — fails with
`InsufficientBalance` when `amount` exceeds the withdrawable balance,
otherwise decrements it and instructs the external token ledger to move
exactly `amount` out (the returned transfer instruction). -/
def withdraw (s : Coordinator) (account : Address) (amount : Nat) :
    Except CoordError (Coordinator × Address × Nat) :=
  if s.withdrawable account < amount then .error .insufficientBalance
  else
    .ok ({ s with
            withdrawable := fun a =>
              if a = account then s.withdrawable a - amount
              else s.withdrawable a },
         account, amount)

/-- Modelled from the spec: `deposit` (§4.4) — increases the withdrawable
balance of the *authenticated sender* by the amount *actually
transferred*. -/
def depositFunds (s : Coordinator) (sender : Address) (amount : Nat) :
    Coordinator :=
  { s with withdrawable := credit s.withdrawable sender amount }

/-- Payload carried by a token `transferAndCall` into the coordinator.  The
`claimed` fields are whatever the caller embedded in the payload; the
coordinator never trusts them. -/
inductive TransferPayload where
  | oracleReq (claimedSender : Address) (claimedAmount : Nat) (said : Nat)
      (callbackAddr : Address) (callbackFn : Nat)
  | deposit (claimedAccount : Address) (claimedAmount : Nat)
  deriving Repr, DecidableEq

/-- Modelled from the spec: the token-transfer entry point — dispatches on
the payload but always substitutes the authenticated `sender` and the
amount actually transferred for any embedded claims (§4.3, §4.4). -/
def onTokenTransfer (s : Coordinator) (sender : Address) (amount : Nat)
    (payload : TransferPayload) :
    Except CoordError (Coordinator × Option Nat) :=
  match payload with
  | .oracleReq _ _ said cbAddr cbFn =>
      (oracleRequest s sender amount said cbAddr cbFn).map fun p =>
        (p.1, some p.2)
  | .deposit _ _ => .ok (depositFunds s sender amount, none)

/-! Concrete scenario mirroring the test suite's three-oracle mean
aggregation runs: LINK token at address 100, consumer 50, callback target
60, oracles 1, 2, 3, payment `10^18`. -/

/-- Address of the payment token in the concrete scenario. -/
def linkAddr : Address := 100

/-- The consumer/requester address in the concrete scenario. -/
def consumerAddr : Address := 50

/-- The consuming contract (callback target) in the concrete scenario. -/
def mockAddr : Address := 60

/-- The concrete scenario's payment: one token, `10^18` base units. -/
def P0 : Nat := 10 ^ 18

/-- The three-oracle mean-strategy service agreement of the test suite. -/
def sa3 : ServiceAgreement :=
  { payment := P0, expiration := 300, endAt := 2000000000,
    oracles := [1, 2, 3], requestDigest := 42, aggregator := 7 }

/-- Well-formed signatures: each oracle signs the agreement's id. -/
def goodSigs (sa : ServiceAgreement) : List OracleSignature :=
  sa.oracles.map fun o => { signer := o, digest := generateSAID sa }

/-- The coordinator's initial state in the concrete scenario. -/
def s0 : Coordinator :=
  { linkToken := linkAddr, agreements := fun _ => none,
    requests := fun _ => none, withdrawable := fun _ => 0,
    escrowed := fun _ => 0, requestCounter := 0 }

/-- Run the whole pipeline: register the three-oracle agreement, open a
request paying `P0` through the token, then let oracles 1, 2, 3 report
`v1`, `v2`, `v3` in order; returns the final state and last outcome. -/
def scenario3 (v1 v2 v3 : Nat) :
    Except CoordError (Coordinator × FulfillOutcome) := do
  let (s1, said) ← initiateServiceAgreement s0 sa3 (goodSigs sa3) 1000
  let (s2, orid) ← onTokenTransfer s1 consumerAddr P0
    (.oracleReq consumerAddr P0 said mockAddr 77)
  match orid with
  | none => .error .unknownRequest
  | some rid =>
    let (s3, _) ← fulfillOracleRequest s2 rid 1 v1 true
    let (s4, _) ← fulfillOracleRequest s3 rid 2 v2 true
    fulfillOracleRequest s4 rid 3 v3 true

/-- Sum of the first `k` ranks' weights. -/
def weightSum (n : Nat) : Nat → Nat
  | 0 => 0
  | k + 1 => weightSum n k + weight n (k + 1)

/-- Run a sequence of withdrawals for one account, stopping at the first
failure. -/
def withdrawSeq (s : Coordinator) (account : Address) :
    List Nat → Except CoordError Coordinator
  | [] => .ok s
  | a :: rest =>
      match withdraw s account a with
      | .error e => .error e
      | .ok (s', _, _) => withdrawSeq s' account rest

/-- A concrete open request against the three-oracle agreement with two
reports already accepted (oracles 1 and 2 reported 16 and 17), used to
instantiate the lifecycle theorems. -/
def wReq : OracleRequest :=
  { said := generateSAID sa3, callbackAddr := mockAddr, callbackFn := 77,
    requester := consumerAddr, payment := P0, status := .opened,
    reports := [Report.mk 1 16, Report.mk 2 17] }

/-- A concrete coordinator state holding the registered three-oracle
agreement, the request `wReq` under id `0`, and the escrowed payment. -/
def wState : Coordinator :=
  { linkToken := linkAddr,
    agreements := fun i => if i = generateSAID sa3 then some sa3 else none,
    requests := fun r => if r = 0 then some wReq else none,
    withdrawable := fun _ => 0,
    escrowed := fun a => if a = consumerAddr then P0 else 0,
    requestCounter := 1 }

/-- The coordinator state after successfully registering `sa3` in `s0`. -/
def sReg : Coordinator :=
  { s0 with
      agreements := fun i => if i = generateSAID sa3 then some sa3 else none }

/-- The state after oracle 3's finalizing report on `wState`: the request
is *Fulfilled*, the split is credited and the escrow debited. -/
def wFinalState : Coordinator :=
  { wState with
      requests := setReq wState.requests 0
        { wReq with reports := wReq.reports ++ [Report.mk 3 18],
                    status := .fulfilled },
      withdrawable := applyShares wState.withdrawable P0 3 1
        (wReq.reports ++ [Report.mk 3 18]),
      escrowed := debit wState.escrowed consumerAddr (sumShares P0 3) }

/-- The outcome of oracle 3's finalizing report on `wState`. -/
def wFinalOutcome : FulfillOutcome :=
  { finalized := true,
    finalValue := some (meanValue 3
      ((wReq.reports ++ [Report.mk 3 18]).map Report.value)),
    callbackInvoked := true, callbackSucceeded := true }

/-! Lemmas about the mean aggregation strategy. -/

/-- One aggregation step preserves the linear invariant
`average * n + remainder = (values folded so far).sum`. -/
lemma meanStep_linear (n : Nat) (acc : MeanAcc) (v : Nat) :
    (meanStep n acc v).average * n + (meanStep n acc v).remainder
      = acc.average * n + acc.remainder + v := by
  simp only [meanStep]
  have h1 : n * (v / n) + v % n = v := Nat.div_add_mod v n
  have h2 : n * ((acc.remainder + v % n) / n) + (acc.remainder + v % n) % n
      = acc.remainder + v % n := Nat.div_add_mod _ n
  calc (acc.average + v / n + (acc.remainder + v % n) / n) * n
        + (acc.remainder + v % n) % n
      = acc.average * n + n * (v / n)
          + (n * ((acc.remainder + v % n) / n) + (acc.remainder + v % n) % n) := by
        ring
    _ = acc.average * n + n * (v / n) + (acc.remainder + v % n) := by rw [h2]
    _ = acc.average * n + acc.remainder + (n * (v / n) + v % n) := by ring
    _ = acc.average * n + acc.remainder + v := by rw [h1]

/-- The carried remainder stays below `n` at every step. -/
lemma meanStep_rem_lt (n : Nat) (hn : 0 < n) (acc : MeanAcc) (v : Nat) :
    (meanStep n acc v).remainder < n := by
  simp only [meanStep]
  exact Nat.mod_lt _ hn

/-- Folding the mean strategy over a value list adds the list's sum to the
linear invariant. -/
lemma meanFold_linear (n : Nat) (vs : List Nat) : ∀ acc : MeanAcc,
    (vs.foldl (meanStep n) acc).average * n + (vs.foldl (meanStep n) acc).remainder
      = acc.average * n + acc.remainder + vs.sum := by
  induction vs with
  | nil => intro acc; simp
  | cons v vs ih =>
      intro acc
      rw [List.foldl_cons, ih, meanStep_linear, List.sum_cons]
      ring

/-- The remainder after a fold is below `n` whenever it started below `n`. -/
lemma meanFold_rem_lt (n : Nat) (hn : 0 < n) (vs : List Nat) : ∀ acc : MeanAcc,
    acc.remainder < n → (vs.foldl (meanStep n) acc).remainder < n := by
  induction vs with
  | nil => intro acc h; simpa using h
  | cons v vs ih =>
      intro acc _
      rw [List.foldl_cons]
      exact ih _ (meanStep_rem_lt n hn acc v)

/-- The incremental mean strategy computes exactly the integer mean
`floor(sum / n)` of the reported values. -/
lemma meanValue_eq_sum_div (n : Nat) (hn : 0 < n) (vs : List Nat) :
    meanValue n vs = vs.sum / n := by
  have hlin := meanFold_linear n vs ⟨0, 0⟩
  have hrem := meanFold_rem_lt n hn vs ⟨0, 0⟩ hn
  simp only [meanValue, meanRun]
  set acc := vs.foldl (meanStep n) ⟨0, 0⟩ with hacc
  have hlin' : acc.average * n + acc.remainder = vs.sum := by simpa using hlin
  have hsum : vs.sum = n * acc.average + acc.remainder := by rw [← hlin']; ring
  rw [hsum, Nat.mul_add_div hn, Nat.div_eq_of_lt hrem]
  simp

/-- Every intermediate quantity of a mean run over at most `n` values,
each below `2^256`, stays below `2^256`: the generalized invariant
carrying the count `k` of values already folded. -/
lemma stepsBoundedFrom_of_bounds (n : Nat) (hn : 0 < n) (h2n : 2 * n ≤ U256) :
    ∀ (vs : List Nat) (acc : MeanAcc) (k : Nat),
      acc.remainder < n →
      acc.average * n + acc.remainder ≤ k * (U256 - 1) →
      k + vs.length ≤ n →
      (∀ v ∈ vs, v < U256) →
      stepsBoundedFrom n acc vs = true := by
  intro vs
  induction vs with
  | nil => intro acc k _ _ _ _; rfl
  | cons v vs ih =>
      intro acc k hr hs hk hv
      have hv0 : v < U256 := hv v (List.mem_cons_self v vs)
      have hvm : v % n < n := Nat.mod_lt v hn
      have hk1 : k + 1 ≤ n := by
        have := hk
        simp only [List.length_cons] at this
        omega
      have hstep : (meanStep n acc v).average * n + (meanStep n acc v).remainder
          ≤ (k + 1) * (U256 - 1) := by
        rw [meanStep_linear]
        have hexp : (k + 1) * (U256 - 1) = k * (U256 - 1) + (U256 - 1) := by ring
        rw [hexp]
        have hvle : v ≤ U256 - 1 := by omega
        omega
      have havg : (meanStep n acc v).average < U256 := by
        have h1 : (meanStep n acc v).average * n
            ≤ (k + 1) * (U256 - 1) := le_trans (Nat.le_add_right _ _) hstep
        have h2 : (k + 1) * (U256 - 1) ≤ n * (U256 - 1) :=
          Nat.mul_le_mul_right _ hk1
        have h3 : (meanStep n acc v).average * n ≤ (U256 - 1) * n := by
          rw [mul_comm (U256 - 1) n]
          exact le_trans h1 h2
        have h4 : (meanStep n acc v).average ≤ U256 - 1 :=
          Nat.le_of_mul_le_mul_right h3 hn
        omega
      simp only [stepsBoundedFrom, Bool.and_eq_true, decide_eq_true_eq]
      refine ⟨⟨?_, ?_⟩, ?_⟩
      · omega
      · simpa [meanStep] using havg
      · exact ih (meanStep n acc v) (k + 1) (meanStep_rem_lt n hn acc v) hstep
          (by simp only [List.length_cons] at hk; omega)
          (fun w hw => hv w (List.mem_cons_of_mem v hw))

/-- A full mean run over at most `n` values below `2^256` never overflows. -/
lemma meanNoOverflow_of_bounds (n : Nat) (vs : List Nat) (hn : 0 < n)
    (h2n : 2 * n ≤ U256) (hlen : vs.length ≤ n) (hv : ∀ v ∈ vs, v < U256) :
    meanNoOverflow n vs = true := by
  exact stepsBoundedFrom_of_bounds n hn h2n vs ⟨0, 0⟩ 0 hn (by simp)
    (by simpa using hlen) hv

/-! Lemmas about the order-weighted payment split. -/

/-- Closed form of the weight prefix sums: `k * (2n - k)` for `k ≤ n`. -/
lemma weightSum_eq (n : Nat) : ∀ k, k ≤ n → weightSum n k = k * (2 * n - k) := by
  intro k
  induction k with
  | zero => intro _; simp [weightSum]
  | succ j ih =>
      intro hk
      have hj : j ≤ n := Nat.le_of_succ_le hk
      rw [weightSum, ih hj, weight]
      zify [show j ≤ 2 * n by omega, show j + 1 ≤ 2 * n by omega,
        show j + 1 ≤ n from hk]
      ring

/-- The weights of all `n` ranks sum to `n^2` parts. -/
lemma weightSum_n (n : Nat) : weightSum n n = n * n := by
  rw [weightSum_eq n n le_rfl, show 2 * n - n = n by omega]

/-- Sum of integer-division shares is at most the division of the sum. -/
lemma div_add_div_le_add_div (a b c : Nat) : a / c + b / c ≤ (a + b) / c := by
  rcases Nat.eq_zero_or_pos c with h | h
  · simp [h]
  · rw [Nat.le_div_iff_mul_le h, Nat.add_mul]
    exact Nat.add_le_add (Nat.div_mul_le_self a c) (Nat.div_mul_le_self b c)

/-- Prefix sums of shares are bounded by the share of the summed weight. -/
lemma sumSharesAux_le (P n : Nat) : ∀ k,
    sumSharesAux P n k ≤ P * weightSum n k / (n * n) := by
  intro k
  induction k with
  | zero => simp [sumSharesAux]
  | succ j ih =>
      rw [sumSharesAux, weightSum]
      calc sumSharesAux P n j + oracleShare P n (j + 1)
          ≤ P * weightSum n j / (n * n) + P * weight n (j + 1) / (n * n) :=
            Nat.add_le_add ih le_rfl
        _ ≤ (P * weightSum n j + P * weight n (j + 1)) / (n * n) :=
            div_add_div_le_add_div _ _ _
        _ = P * (weightSum n j + weight n (j + 1)) / (n * n) := by
            rw [Nat.mul_add]

/-- The split never pays out more than the escrowed total. -/
lemma sumShares_le (P n : Nat) (hn : 0 < n) : sumShares P n ≤ P := by
  have h := sumSharesAux_le P n n
  rw [weightSum_n] at h
  calc sumShares P n ≤ P * (n * n) / (n * n) := h
    _ = P := Nat.mul_div_cancel P (Nat.mul_pos hn hn)

/-- Crediting another account never changes an unrelated balance. -/
lemma credit_other (f : Address → Nat) (a x : Address) (amt : Nat) (h : x ≠ a) :
    credit f a amt x = f x := by
  simp [credit, h]

/-- Crediting an account adds exactly the amount to it. -/
lemma credit_self (f : Address → Nat) (a : Address) (amt : Nat) :
    credit f a amt a = f a + amt := by
  simp [credit]

/-- Distributing shares leaves any account that did not report untouched. -/
lemma applyShares_notin (P n : Nat) : ∀ (reports : List Report)
    (w : Address → Nat) (r : Nat) (a : Address),
    a ∉ reports.map Report.node → applyShares w P n r reports a = w a := by
  intro reports
  induction reports with
  | nil => intro w r a _; rfl
  | cons rep rest ih =>
      intro w r a ha
      simp only [List.map_cons, List.mem_cons, not_or] at ha
      rw [applyShares, ih _ _ _ ha.2, credit_other _ _ _ _ ha.1]

/-- Distributing shares credits the node whose report stands at 0-based
position `i` (1-based rank `r0 + i`) with exactly its order-weighted
share, provided the reporting nodes are distinct. -/
lemma applyShares_rank (P n : Nat) : ∀ (reports : List Report)
    (w : Address → Nat) (r0 : Nat) (i : Nat) (hi : i < reports.length),
    (reports.map Report.node).Nodup →
    applyShares w P n r0 reports ((reports.get ⟨i, hi⟩).node)
      = w ((reports.get ⟨i, hi⟩).node) + oracleShare P n (r0 + i) := by
  intro reports
  induction reports with
  | nil => intro w r0 i hi; exact absurd hi (by simp)
  | cons rep rest ih =>
      intro w r0 i hi hnd
      simp only [List.map_cons, List.nodup_cons] at hnd
      cases i with
      | zero =>
          simp only [List.get]
          rw [applyShares, applyShares_notin P n rest _ _ _ hnd.1,
            credit_self, Nat.add_zero]
      | succ j =>
          have hj : j < rest.length := by simpa using hi
          have hne : (rest.get ⟨j, hj⟩).node ≠ rep.node := by
            intro heq
            exact hnd.1 (heq ▸ List.mem_map_of_mem Report.node (rest.get_mem j hj))
          simp only [List.get]
          rw [applyShares, ih _ _ _ hj hnd.2, credit_other _ _ _ _ hne,
            show r0 + 1 + j = r0 + (j + 1) from by omega]

/-! Lemmas about sequential withdrawals. -/

/-- A sequence of withdrawals whose total stays within the withdrawable
balance succeeds and decrements the balance by exactly the total. -/
lemma withdrawSeq_ok (account : Address) : ∀ (amounts : List Nat)
    (s : Coordinator), amounts.sum ≤ s.withdrawable account →
    ∃ s', withdrawSeq s account amounts = .ok s'
      ∧ s'.withdrawable account = s.withdrawable account - amounts.sum := by
  intro amounts
  induction amounts with
  | nil => intro s _; exact ⟨s, rfl, by simp⟩
  | cons a rest ih =>
      intro s hsum
      simp only [List.sum_cons] at hsum
      have hnot : ¬ s.withdrawable account < a := by omega
      have hstep : withdraw s account a
          = .ok ({ s with
                    withdrawable := fun x =>
                      if x = account then s.withdrawable x - a
                      else s.withdrawable x },
                 account, a) := by
        rw [withdraw, if_neg hnot]
      obtain ⟨s', hrun, hbal⟩ := ih
        { s with
            withdrawable := fun x =>
              if x = account then s.withdrawable x - a else s.withdrawable x }
        (by simp; omega)
      refine ⟨s', ?_, ?_⟩
      · rw [withdrawSeq, hstep]
        exact hrun
      · simp only [List.sum_cons]
        simp at hbal
        omega

/-! Characterizations of the report-submission state transition. -/

/-- An accepted report either finalizes the request (when it is the last
missing one) — committing the *Fulfilled* status, the incremental mean and
the payment split — or is merely recorded. -/
lemma fulfillCore_accept (s : Coordinator) (rid : Nat) (req : OracleRequest)
    (sa : ServiceAgreement) (oracle : Address) (value : Nat)
    (hreq : s.requests rid = some req) (hopen : req.status = .opened)
    (hsa : s.agreements req.said = some sa) (hmem : oracle ∈ sa.oracles)
    (hnew : ¬ ∃ rep ∈ req.reports, rep.node = oracle) :
    fulfillCore s rid oracle value =
      if req.reports.length + 1 = sa.oracles.length then
        .ok ({ s with
                requests := setReq s.requests rid
                  { req with reports := req.reports ++ [Report.mk oracle value],
                             status := .fulfilled },
                withdrawable := applyShares s.withdrawable req.payment
                  sa.oracles.length 1 (req.reports ++ [Report.mk oracle value]),
                escrowed := debit s.escrowed req.requester
                  (sumShares req.payment sa.oracles.length) },
             true,
             some (meanValue sa.oracles.length
               ((req.reports ++ [Report.mk oracle value]).map Report.value)))
      else
        .ok ({ s with
                requests := setReq s.requests rid
                  { req with reports := req.reports ++ [Report.mk oracle value] } },
             false, none) := by
  simp only [fulfillCore, hreq, hopen, hsa, hmem, if_true, reduceCtorEq,
    if_false, hnew, List.length_append, List.length_cons, List.length_nil,
    Nat.zero_add]

/-- A node that already has an accepted report is rejected with the
duplicate-report error. -/
lemma fulfillCore_dup (s : Coordinator) (rid : Nat) (req : OracleRequest)
    (sa : ServiceAgreement) (oracle : Address) (value : Nat)
    (hreq : s.requests rid = some req) (hopen : req.status = .opened)
    (hsa : s.agreements req.said = some sa) (hmem : oracle ∈ sa.oracles)
    (hdup : ∃ rep ∈ req.reports, rep.node = oracle) :
    fulfillCore s rid oracle value = .error .duplicateReport := by
  simp only [fulfillCore, hreq, hopen, hsa, hmem, if_true, reduceCtorEq,
    if_false, hdup]

/-- A report against an already-fulfilled request is rejected. -/
lemma fulfillCore_closed (s : Coordinator) (rid : Nat) (req : OracleRequest)
    (oracle : Address) (value : Nat)
    (hreq : s.requests rid = some req) (hful : req.status = .fulfilled) :
    fulfillCore s rid oracle value = .error .requestClosed := by
  simp only [fulfillCore, hreq, hful, if_true]

/-- Unfolding equation for `fulfillOracleRequest` in terms of the
committed state transition. -/
lemma fulfillOracleRequest_def (s : Coordinator) (rid : Nat) (oracle : Address)
    (value : Nat) (cb : Bool) :
    fulfillOracleRequest s rid oracle value cb
      = (fulfillCore s rid oracle value).map (fun p =>
          (p.1, { finalized := p.2.1, finalValue := p.2.2,
                  callbackInvoked := p.2.1, callbackSucceeded := p.2.1 && cb })) :=
  rfl

/-- C1: the running-mean aggregation over `uint256` report values (at most
one report per oracle of an `n`-oracle agreement) never overflows any
intermediate computation and produces the integer mean; in particular,
through the full request pipeline, reports `2^255 - 1`, `2^255`,
`2^255 + 1` finalize to exactly `2^255`, and three reports equal to the
maximum `uint256` value finalize to that maximum. -/
theorem c1_mean_no_overflow_and_large_values :
    (∀ (n : Nat) (vs : List Nat), 0 < n → 2 * n ≤ U256 → vs.length ≤ n →
        (∀ v ∈ vs, v < U256) →
        meanNoOverflow n vs = true ∧ meanValue n vs = vs.sum / n)
    ∧ (scenario3 (2 ^ 255 - 1) (2 ^ 255) (2 ^ 255 + 1)).map
        (fun p => p.2.finalValue) = .ok (some (2 ^ 255))
    ∧ (scenario3 (U256 - 1) (U256 - 1) (U256 - 1)).map
        (fun p => p.2.finalValue) = .ok (some (U256 - 1)) := by
  refine ⟨fun n vs hn h2n hlen hv =>
    ⟨meanNoOverflow_of_bounds n vs hn h2n hlen hv,
     meanValue_eq_sum_div n hn vs⟩, ?_, ?_⟩
  · rfl
  · rfl

/-- Witness instantiating C1's universally quantified part at the spec's
own large-value vector. -/
theorem c1_mean_no_overflow_and_large_values_witness :
    meanNoOverflow 3 [2 ^ 255 - 1, 2 ^ 255, 2 ^ 255 + 1] = true
      ∧ meanValue 3 [2 ^ 255 - 1, 2 ^ 255, 2 ^ 255 + 1]
          = ([2 ^ 255 - 1, 2 ^ 255, 2 ^ 255 + 1] : List Nat).sum / 3 :=
  c1_mean_no_overflow_and_large_values.1 3 [2 ^ 255 - 1, 2 ^ 255, 2 ^ 255 + 1]
    (by decide) (by decide) (by decide) (by decide)

/-- C2: under an `n`-oracle mean agreement, an accepted report finalizes
the request exactly when it is the `n`-th distinct accepted report; with
fewer accepted reports no consumer callback fires and neither ledger
moves, and the `n`-th report invokes the callback with the integer mean
of the `n` reported values (distinctness of the reporting nodes is
preserved). -/
theorem c2_finalizes_after_n_reports (s : Coordinator) (rid : Nat)
    (req : OracleRequest) (sa : ServiceAgreement) (oracle : Address)
    (value : Nat) (cb : Bool)
    (hreq : s.requests rid = some req) (hopen : req.status = .opened)
    (hsa : s.agreements req.said = some sa) (hmem : oracle ∈ sa.oracles)
    (hnew : ¬ ∃ rep ∈ req.reports, rep.node = oracle)
    (hnd : (req.reports.map Report.node).Nodup) :
    (fulfillOracleRequest s rid oracle value cb).isOk = true
    ∧ ((req.reports ++ [Report.mk oracle value]).map Report.node).Nodup
    ∧ ∀ s' out, fulfillOracleRequest s rid oracle value cb = .ok (s', out) →
        (out.finalized = true ↔ req.reports.length + 1 = sa.oracles.length)
        ∧ (req.reports.length + 1 ≠ sa.oracles.length →
            out.callbackInvoked = false ∧ s'.withdrawable = s.withdrawable
              ∧ s'.escrowed = s.escrowed)
        ∧ (req.reports.length + 1 = sa.oracles.length →
            out.callbackInvoked = true ∧
            out.finalValue = some
              (((req.reports ++ [Report.mk oracle value]).map Report.value).sum
                / sa.oracles.length)) := by
  have hacc := fulfillCore_accept s rid req sa oracle value hreq hopen hsa hmem hnew
  have hnd' : ((req.reports ++ [Report.mk oracle value]).map Report.node).Nodup := by
    simp only [List.map_append, List.map_cons, List.map_nil]
    rw [List.nodup_append]
    refine ⟨hnd, by simp, ?_⟩
    intro a ha hb
    simp only [List.mem_singleton] at hb
    subst hb
    simp only [List.mem_map] at ha
    obtain ⟨rep, hrep, hrepn⟩ := ha
    exact hnew ⟨rep, hrep, hrepn⟩
  by_cases hfin : req.reports.length + 1 = sa.oracles.length
  · rw [if_pos hfin] at hacc
    have hn : 0 < sa.oracles.length := by omega
    refine ⟨by rw [fulfillOracleRequest_def, hacc]; rfl, hnd', ?_⟩
    intro s' out h
    rw [fulfillOracleRequest_def, hacc] at h
    simp only [Except.map, Except.ok.injEq, Prod.mk.injEq] at h
    obtain ⟨hs, ho⟩ := h
    subst hs
    subst ho
    refine ⟨by simp [hfin], fun hcontra => absurd hfin hcontra, fun _ => ⟨rfl, ?_⟩⟩
    show some (meanValue sa.oracles.length
        ((req.reports ++ [Report.mk oracle value]).map Report.value))
      = some (((req.reports ++ [Report.mk oracle value]).map Report.value).sum
          / sa.oracles.length)
    rw [meanValue_eq_sum_div _ hn]
  · rw [if_neg hfin] at hacc
    refine ⟨by rw [fulfillOracleRequest_def, hacc]; rfl, hnd', ?_⟩
    intro s' out h
    rw [fulfillOracleRequest_def, hacc] at h
    simp only [Except.map, Except.ok.injEq, Prod.mk.injEq] at h
    obtain ⟨hs, ho⟩ := h
    subst hs
    subst ho
    exact ⟨by simp [hfin], fun _ => ⟨rfl, rfl, rfl⟩, fun h' => absurd h' hfin⟩

/-- Witness instantiating C2 at the concrete two-reports-in state: oracle
3's report is the third of three and finalizes with the mean. -/
theorem c2_finalizes_after_n_reports_witness :
    (fulfillOracleRequest wState 0 3 18 true).isOk = true
    ∧ ((wReq.reports ++ [Report.mk 3 18]).map Report.node).Nodup
    ∧ ∀ s' out, fulfillOracleRequest wState 0 3 18 true = .ok (s', out) →
        (out.finalized = true ↔ wReq.reports.length + 1 = sa3.oracles.length)
        ∧ (wReq.reports.length + 1 ≠ sa3.oracles.length →
            out.callbackInvoked = false ∧ s'.withdrawable = wState.withdrawable
              ∧ s'.escrowed = wState.escrowed)
        ∧ (wReq.reports.length + 1 = sa3.oracles.length →
            out.callbackInvoked = true ∧
            out.finalValue = some
              (((wReq.reports ++ [Report.mk 3 18]).map Report.value).sum
                / sa3.oracles.length)) :=
  c2_finalizes_after_n_reports wState 0 wReq sa3 3 18 true rfl rfl rfl
    (by decide) (by decide) (by decide)

/-- C3: a second report from a node that already has an accepted report is
rejected with the duplicate-report error and yields no successor state (so
the accepted reports and both ledgers are untouched and the final
aggregate can only ever be computed from the originally accepted values),
while every oracle that has not yet reported can still report. -/
theorem c3_duplicate_rejected (s : Coordinator) (rid : Nat)
    (req : OracleRequest) (sa : ServiceAgreement) (oracle : Address)
    (value : Nat) (cb : Bool)
    (hreq : s.requests rid = some req) (hopen : req.status = .opened)
    (hsa : s.agreements req.said = some sa) (hmem : oracle ∈ sa.oracles)
    (hdup : ∃ rep ∈ req.reports, rep.node = oracle) :
    fulfillOracleRequest s rid oracle value cb = .error .duplicateReport
    ∧ ∀ (o' : Address) (v' : Nat) (cb' : Bool), o' ∈ sa.oracles →
        (¬ ∃ rep ∈ req.reports, rep.node = o') →
        (fulfillOracleRequest s rid o' v' cb').isOk = true := by
  constructor
  · rw [fulfillOracleRequest_def,
      fulfillCore_dup s rid req sa oracle value hreq hopen hsa hmem hdup]
    rfl
  · intro o' v' cb' hmem' hnew'
    have hacc := fulfillCore_accept s rid req sa o' v' hreq hopen hsa hmem' hnew'
    by_cases hfin : req.reports.length + 1 = sa.oracles.length
    · rw [if_pos hfin] at hacc
      rw [fulfillOracleRequest_def, hacc]
      rfl
    · rw [if_neg hfin] at hacc
      rw [fulfillOracleRequest_def, hacc]
      rfl

/-- Witness instantiating C3: oracle 2 already reported in `wState`, its
second report is rejected, and oracle 3 can still report. -/
theorem c3_duplicate_rejected_witness :
    fulfillOracleRequest wState 0 2 99 true = .error .duplicateReport
    ∧ ∀ (o' : Address) (v' : Nat) (cb' : Bool), o' ∈ sa3.oracles →
        (¬ ∃ rep ∈ wReq.reports, rep.node = o') →
        (fulfillOracleRequest wState 0 o' v' cb').isOk = true :=
  c3_duplicate_rejected wState 0 wReq sa3 2 99 true rfl rfl rfl
    (by decide) (by decide)

/-- Pairwise signature validation succeeds exactly when there is one
signature per listed oracle and each recovers its oracle over the id. -/
lemma validSignatures_iff (said : Nat) : ∀ (os : List Address)
    (gs : List OracleSignature),
    validSignatures said os gs = true ↔
      (gs.length = os.length
        ∧ ∀ (i : Nat) (h1 : i < os.length) (h2 : i < gs.length),
            recoverSigner said (gs.get ⟨i, h2⟩) = some (os.get ⟨i, h1⟩)) := by
  intro os
  induction os with
  | nil =>
      intro gs
      cases gs with
      | nil => simp [validSignatures]
      | cons g gs => simp [validSignatures]
  | cons o os ih =>
      intro gs
      cases gs with
      | nil => simp [validSignatures]
      | cons g gs =>
          rw [validSignatures, Bool.and_eq_true, decide_eq_true_eq, ih gs]
          constructor
          · rintro ⟨hg, hlen, hrec⟩
            refine ⟨by simpa using hlen, ?_⟩
            intro i h1 h2
            cases i with
            | zero => simpa using hg
            | succ j =>
                have := hrec j (by simpa using h1) (by simpa using h2)
                simpa using this
          · rintro ⟨hlen, hrec⟩
            refine ⟨?_, by simpa using hlen, ?_⟩
            · have := hrec 0 (by simp) (by simp)
              simpa using this
            · intro j hj1 hj2
              have := hrec (j + 1) (by simpa using hj1) (by simpa using hj2)
              simpa using this

/-- A finalizing report submission stores the request as *Fulfilled*. -/
lemma fulfillCore_ok_final (s : Coordinator) (rid : Nat) (oracle : Address)
    (value : Nat) (s₁ : Coordinator) (fv : Option Nat)
    (h : fulfillCore s rid oracle value = .ok (s₁, true, fv)) :
    ∃ req', s₁.requests rid = some req' ∧ req'.status = .fulfilled := by
  simp only [fulfillCore] at h
  split at h
  · simp at h
  · rename_i req hreq
    split at h
    · simp at h
    · split at h
      · simp at h
      · rename_i sa hag
        split at h
        · split at h
          · simp at h
          · split at h
            · simp only [Except.ok.injEq, Prod.mk.injEq] at h
              obtain ⟨hs, -⟩ := h
              subst hs
              exact ⟨{ req with
                        reports := req.reports ++ [Report.mk oracle value],
                        status := .fulfilled },
                     by simp [setReq], rfl⟩
            · simp at h
        · simp at h

/-- C4: the settlement split credits the node whose report holds 1-based
rank `r = i + 1` with exactly `P * (2*(n - r) + 1) / n^2`; for `n = 3` the
three ranks receive `5P/9`, `3P/9`, `1P/9`; the paid total never exceeds
`P` and the integer-division remainder is retained, the paid shares plus
the retained remainder reconstituting `P` exactly; concretely, the full
pipeline with payment `10^18` leaves the oracles with balances
`555555555555555555`, `333333333333333333`, `111111111111111111` and the
remainder `1` in escrow. -/
theorem c4_order_weighted_payment_split :
    (∀ (P n : Nat) (reports : List Report) (w : Address → Nat) (i : Nat)
        (hi : i < reports.length), (reports.map Report.node).Nodup →
        applyShares w P n 1 reports ((reports.get ⟨i, hi⟩).node)
          = w ((reports.get ⟨i, hi⟩).node)
              + P * (2 * (n - (i + 1)) + 1) / (n * n))
    ∧ (∀ P : Nat, oracleShare P 3 1 = P * 5 / 9 ∧ oracleShare P 3 2 = P * 3 / 9
        ∧ oracleShare P 3 3 = P * 1 / 9)
    ∧ (∀ P n : Nat, 0 < n →
        sumShares P n ≤ P ∧ sumShares P n + (P - sumShares P n) = P)
    ∧ (scenario3 16 17 18).map (fun p =>
        (p.1.withdrawable 1, p.1.withdrawable 2, p.1.withdrawable 3,
         p.1.escrowed consumerAddr))
      = .ok (555555555555555555, 333333333333333333, 111111111111111111, 1) := by
  refine ⟨?_, ?_, ?_, ?_⟩
  · intro P n reports w i hi hnd
    rw [applyShares_rank P n reports w 1 i hi hnd]
    simp only [oracleShare, weight, Nat.add_comm 1 i]
  · intro P
    refine ⟨?_, ?_, ?_⟩ <;> norm_num [oracleShare, weight]
  · intro P n hn
    have hle := sumShares_le P n hn
    exact ⟨hle, by omega⟩
  · rfl

/-- Witness instantiating C4's split formula at rank 1 of the concrete
three-report list and its conservation conjunct at `P = 10^18`, `n = 3`. -/
theorem c4_order_weighted_payment_split_witness :
    applyShares (fun _ => 0) P0 3 1
        [Report.mk 1 16, Report.mk 2 17, Report.mk 3 18]
        ((([Report.mk 1 16, Report.mk 2 17, Report.mk 3 18] :
            List Report).get ⟨0, by decide⟩).node)
      = (fun _ => (0 : Nat))
          ((([Report.mk 1 16, Report.mk 2 17, Report.mk 3 18] :
              List Report).get ⟨0, by decide⟩).node)
          + P0 * (2 * (3 - (0 + 1)) + 1) / (3 * 3)
    ∧ (sumShares P0 3 ≤ P0 ∧ sumShares P0 3 + (P0 - sumShares P0 3) = P0) :=
  ⟨c4_order_weighted_payment_split.1 P0 3
      [Report.mk 1 16, Report.mk 2 17, Report.mk 3 18] (fun _ => 0) 0
      (by decide) (by decide),
   c4_order_weighted_payment_split.2.2.1 P0 3 (by decide)⟩

/-- C5: the coordinator accounts only for the amount actually transferred
on the token ledger with the authenticated sender as the account: the
outcome of opening a request is independent of any payment figure the
requester embeds in the payload, the opened request records the
transferred amount and the true sender, and a deposit credits the actual
sender with the actual transfer amount no matter which account or amount
the payload names. -/
theorem c5_actual_transfer_authoritative (s : Coordinator) (sender : Address)
    (amount : Nat) (cs ca cs' ca' said cbFn : Nat) (cbAddr : Address)
    (cAcct : Address) (cAmt : Nat) :
    onTokenTransfer s sender amount (.oracleReq cs ca said cbAddr cbFn)
      = onTokenTransfer s sender amount (.oracleReq cs' ca' said cbAddr cbFn)
    ∧ (∀ s' rid, onTokenTransfer s sender amount
          (.oracleReq cs ca said cbAddr cbFn) = .ok (s', some rid) →
        ∃ req, s'.requests rid = some req ∧ req.payment = amount
          ∧ req.requester = sender)
    ∧ onTokenTransfer s sender amount (.deposit cAcct cAmt)
        = .ok (depositFunds s sender amount, none)
    ∧ (depositFunds s sender amount).withdrawable sender
        = s.withdrawable sender + amount
    ∧ (∀ a, a ≠ sender → (depositFunds s sender amount).withdrawable a
        = s.withdrawable a) := by
  refine ⟨rfl, ?_, rfl, ?_, ?_⟩
  · intro s' rid h
    simp only [onTokenTransfer, oracleRequest] at h
    split at h
    · simp [Except.map] at h
    · split at h
      · simp [Except.map] at h
      · split at h
        · simp [Except.map] at h
        · simp only [Except.map, Except.ok.injEq, Prod.mk.injEq,
            Option.some.injEq] at h
          obtain ⟨hs, hrid⟩ := h
          subst hs
          subst hrid
          exact ⟨{ said := said, callbackAddr := cbAddr, callbackFn := cbFn,
                   requester := sender, payment := amount, status := .opened,
                   reports := [] },
                 by simp [setReq], rfl, rfl⟩
  · simp [depositFunds, credit]
  · intro a ha
    simp [depositFunds, credit, ha]

/-- Witness instantiating C5 at a concrete transfer: sender 9 moves 5
tokens with a payload claiming sender 8 paid 12345. -/
theorem c5_actual_transfer_authoritative_witness :
    onTokenTransfer wState 9 5 (.oracleReq 8 12345 77 mockAddr 11)
      = onTokenTransfer wState 9 5 (.oracleReq 4 999 77 mockAddr 11)
    ∧ (∀ s' rid, onTokenTransfer wState 9 5
          (.oracleReq 8 12345 77 mockAddr 11) = .ok (s', some rid) →
        ∃ req, s'.requests rid = some req ∧ req.payment = 5
          ∧ req.requester = 9)
    ∧ onTokenTransfer wState 9 5 (.deposit 8 12345)
        = .ok (depositFunds wState 9 5, none)
    ∧ (depositFunds wState 9 5).withdrawable 9 = wState.withdrawable 9 + 5
    ∧ (∀ a, a ≠ 9 → (depositFunds wState 9 5).withdrawable a
        = wState.withdrawable a) :=
  c5_actual_transfer_authoritative wState 9 5 8 12345 4 999 77 11 mockAddr 8 12345

/-- C6: agreement identity is content-addressed and deterministic — the
on-chain `getId` over the encoded content coincides with the off-chain id
computed from the same content, a successful registration stores exactly
the registered content under that id, and re-registering identical
content returns the same id with the state unchanged (no duplicate). -/
theorem c6_content_addressed_ids (s : Coordinator) (sa : ServiceAgreement)
    (sigs : List OracleSignature) (now : Nat) (s' : Coordinator) (said : Nat)
    (hreg : initiateServiceAgreement s sa sigs now = .ok (s', said)) :
    getId (encodeServiceAgreement sa) = generateSAID sa
    ∧ said = generateSAID sa
    ∧ s'.agreements said = some sa
    ∧ initiateServiceAgreement s' sa sigs now = .ok (s', said) := by
  have hid : getId (encodeServiceAgreement sa) = generateSAID sa := rfl
  simp only [initiateServiceAgreement] at hreg
  by_cases hsig : validSignatures (generateSAID sa) sa.oracles sigs = true
  · rw [if_pos hsig] at hreg
    by_cases htime : now < sa.endAt
    · rw [if_pos htime] at hreg
      split at hreg
      · rename_i existing hag
        by_cases heq : existing = sa
        · rw [if_pos heq] at hreg
          simp only [Except.ok.injEq, Prod.mk.injEq] at hreg
          obtain ⟨hs, hsaid⟩ := hreg
          subst hs
          subst hsaid
          refine ⟨hid, rfl, by rw [hag, heq], ?_⟩
          simp only [initiateServiceAgreement]
          rw [if_pos hsig, if_pos htime]
          simp [hag, heq]
        · rw [if_neg heq] at hreg
          simp at hreg
      · simp only [Except.ok.injEq, Prod.mk.injEq] at hreg
        obtain ⟨hs, hsaid⟩ := hreg
        subst hs
        subst hsaid
        refine ⟨hid, rfl, by simp, ?_⟩
        simp only [initiateServiceAgreement]
        rw [if_pos hsig, if_pos htime]
        simp
    · rw [if_neg htime] at hreg
      simp at hreg
  · rw [if_neg hsig] at hreg
    simp at hreg

/-- Witness instantiating C6 at the concrete registration of `sa3`. -/
theorem c6_content_addressed_ids_witness :
    getId (encodeServiceAgreement sa3) = generateSAID sa3
    ∧ generateSAID sa3 = generateSAID sa3
    ∧ sReg.agreements (generateSAID sa3) = some sa3
    ∧ initiateServiceAgreement sReg sa3 (goodSigs sa3) 1000
        = .ok (sReg, generateSAID sa3) :=
  c6_content_addressed_ids s0 sa3 (goodSigs sa3) 1000 sReg (generateSAID sa3)
    (by rfl)

/-- C7: with the agreement id still unregistered, registration fails
exactly when some listed oracle's signature fails to recover that
oracle's identity over the id, or when `endAt` is not strictly in the
future; the respective failures are `invalidSignature` and
`expiredAgreement`, and a failed registration stores nothing, so looking
the id up still finds no agreement. -/
theorem c7_registration_failure_characterized (s : Coordinator)
    (sa : ServiceAgreement) (sigs : List OracleSignature) (now : Nat)
    (hfresh : s.agreements (generateSAID sa) = none) :
    ((∃ e, initiateServiceAgreement s sa sigs now = .error e)
      ↔ (¬ validSignatures (generateSAID sa) sa.oracles sigs = true
          ∨ sa.endAt ≤ now))
    ∧ (validSignatures (generateSAID sa) sa.oracles sigs = true ↔
        sigs.length = sa.oracles.length
          ∧ ∀ (i : Nat) (h1 : i < sa.oracles.length) (h2 : i < sigs.length),
              recoverSigner (generateSAID sa) (sigs.get ⟨i, h2⟩)
                = some (sa.oracles.get ⟨i, h1⟩))
    ∧ (¬ validSignatures (generateSAID sa) sa.oracles sigs = true →
        initiateServiceAgreement s sa sigs now = .error .invalidSignature)
    ∧ (validSignatures (generateSAID sa) sa.oracles sigs = true →
        sa.endAt ≤ now →
        initiateServiceAgreement s sa sigs now = .error .expiredAgreement)
    ∧ (∀ e, initiateServiceAgreement s sa sigs now = .error e →
        s.agreements (generateSAID sa) = none) := by
  have hinv : ¬ validSignatures (generateSAID sa) sa.oracles sigs = true →
      initiateServiceAgreement s sa sigs now = .error .invalidSignature := by
    intro hsig
    simp only [initiateServiceAgreement]
    rw [if_neg hsig]
  have hexp : validSignatures (generateSAID sa) sa.oracles sigs = true →
      sa.endAt ≤ now →
      initiateServiceAgreement s sa sigs now = .error .expiredAgreement := by
    intro hsig htime
    simp only [initiateServiceAgreement]
    rw [if_pos hsig, if_neg (by omega : ¬ now < sa.endAt)]
  refine ⟨⟨?_, ?_⟩, validSignatures_iff (generateSAID sa) sa.oracles sigs,
    hinv, hexp, fun _ _ => hfresh⟩
  · rintro ⟨e, he⟩
    by_contra hcon
    push_neg at hcon
    obtain ⟨hsig, htime⟩ := hcon
    simp only [initiateServiceAgreement] at he
    rw [if_pos hsig, if_pos htime, hfresh] at he
    simp at he
  · intro hcond
    rcases hcond with hsig | htime
    · exact ⟨.invalidSignature, hinv hsig⟩
    · by_cases hsig : validSignatures (generateSAID sa) sa.oracles sigs = true
      · exact ⟨.expiredAgreement, hexp hsig htime⟩
      · exact ⟨.invalidSignature, hinv hsig⟩

/-- Witness instantiating C7 at the fresh state `s0` with registration
attempted after `sa3`'s deadline has passed. -/
theorem c7_registration_failure_characterized_witness :
    ((∃ e, initiateServiceAgreement s0 sa3 (goodSigs sa3) 3000000000
        = .error e)
      ↔ (¬ validSignatures (generateSAID sa3) sa3.oracles (goodSigs sa3) = true
          ∨ sa3.endAt ≤ 3000000000))
    ∧ (validSignatures (generateSAID sa3) sa3.oracles (goodSigs sa3) = true ↔
        (goodSigs sa3).length = sa3.oracles.length
          ∧ ∀ (i : Nat) (h1 : i < sa3.oracles.length)
              (h2 : i < (goodSigs sa3).length),
              recoverSigner (generateSAID sa3) ((goodSigs sa3).get ⟨i, h2⟩)
                = some (sa3.oracles.get ⟨i, h1⟩))
    ∧ (¬ validSignatures (generateSAID sa3) sa3.oracles (goodSigs sa3) = true →
        initiateServiceAgreement s0 sa3 (goodSigs sa3) 3000000000
          = .error .invalidSignature)
    ∧ (validSignatures (generateSAID sa3) sa3.oracles (goodSigs sa3) = true →
        sa3.endAt ≤ 3000000000 →
        initiateServiceAgreement s0 sa3 (goodSigs sa3) 3000000000
          = .error .expiredAgreement)
    ∧ (∀ e, initiateServiceAgreement s0 sa3 (goodSigs sa3) 3000000000
          = .error e →
        s0.agreements (generateSAID sa3) = none) :=
  c7_registration_failure_characterized s0 sa3 (goodSigs sa3) 3000000000 rfl

/-- C8: once a report finalizes a request the committed state is
independent of the consumer callback's success flag, the request is
stored as *Fulfilled*, a (re-entrant) cancellation attempt is rejected,
and every subsequent report for the request is rejected. -/
theorem c8_fulfillment_committed (s : Coordinator) (rid : Nat)
    (oracle : Address) (value : Nat) (cb : Bool) (s' : Coordinator)
    (out : FulfillOutcome)
    (hful : fulfillOracleRequest s rid oracle value cb = .ok (s', out))
    (hfin : out.finalized = true) :
    (∀ cb' : Bool, ∃ out' : FulfillOutcome,
        fulfillOracleRequest s rid oracle value cb' = .ok (s', out')
          ∧ out'.finalized = true)
    ∧ (∃ req', s'.requests rid = some req' ∧ req'.status = .fulfilled)
    ∧ cancelOracleRequest s' rid = .error .requestClosed
    ∧ ∀ (o' : Address) (v' : Nat) (cb' : Bool),
        fulfillOracleRequest s' rid o' v' cb' = .error .requestClosed := by
  rw [fulfillOracleRequest_def] at hful
  cases hcore : fulfillCore s rid oracle value with
  | error e =>
      rw [hcore] at hful
      simp [Except.map] at hful
  | ok p =>
      obtain ⟨s₁, fin, fv⟩ := p
      rw [hcore] at hful
      simp only [Except.map, Except.ok.injEq, Prod.mk.injEq] at hful
      obtain ⟨hs, ho⟩ := hful
      subst hs
      have hfin' : fin = true := by
        rw [← ho] at hfin
        simpa using hfin
      subst hfin'
      obtain ⟨req', hreq', hst'⟩ :=
        fulfillCore_ok_final s rid oracle value s₁ fv hcore
      refine ⟨?_, ⟨req', hreq', hst'⟩, ?_, ?_⟩
      · intro cb'
        exact ⟨{ finalized := true, finalValue := fv, callbackInvoked := true,
                 callbackSucceeded := true && cb' },
               by rw [fulfillOracleRequest_def, hcore]; rfl, rfl⟩
      · simp [cancelOracleRequest, hreq', hst']
      · intro o' v' cb'
        rw [fulfillOracleRequest_def,
          fulfillCore_closed s₁ rid req' o' v' hreq' hst']
        rfl

/-- Witness instantiating C8 at the concrete finalizing report of oracle
3 on `wState`. -/
theorem c8_fulfillment_committed_witness :
    (∀ cb' : Bool, ∃ out' : FulfillOutcome,
        fulfillOracleRequest wState 0 3 18 cb' = .ok (wFinalState, out')
          ∧ out'.finalized = true)
    ∧ (∃ req', wFinalState.requests 0 = some req'
        ∧ req'.status = .fulfilled)
    ∧ cancelOracleRequest wFinalState 0 = .error .requestClosed
    ∧ ∀ (o' : Address) (v' : Nat) (cb' : Bool),
        fulfillOracleRequest wFinalState 0 o' v' cb'
          = .error .requestClosed :=
  c8_fulfillment_committed wState 0 3 18 true wFinalState wFinalOutcome
    (by rfl) rfl

/-- C9: `withdraw` fails with the insufficient-balance error when the
amount exceeds the account's withdrawable balance (producing no successor
state, so the balance is untouched); otherwise it succeeds, decrements
the balance by exactly the amount, instructs the external ledger to move
exactly that amount, and touches no other account; consequently partial
withdrawals summing to the full balance drain it to zero. -/
theorem c9_withdraw_semantics (s : Coordinator) (account : Address)
    (amount : Nat) :
    (s.withdrawable account < amount →
        withdraw s account amount = .error .insufficientBalance)
    ∧ (amount ≤ s.withdrawable account →
        ∃ s', withdraw s account amount = .ok (s', account, amount)
          ∧ s'.withdrawable account = s.withdrawable account - amount
          ∧ ∀ a, a ≠ account → s'.withdrawable a = s.withdrawable a)
    ∧ (∀ amounts : List Nat, amounts.sum = s.withdrawable account →
        ∃ s', withdrawSeq s account amounts = .ok s'
          ∧ s'.withdrawable account = 0) := by
  refine ⟨?_, ?_, ?_⟩
  · intro h
    rw [withdraw, if_pos h]
  · intro h
    have hnot : ¬ s.withdrawable account < amount := by omega
    refine ⟨{ s with withdrawable := fun a =>
        if a = account then s.withdrawable a - amount
        else s.withdrawable a }, ?_, ?_, ?_⟩
    · rw [withdraw, if_neg hnot]
    · simp
    · intro a ha
      simp [ha]
  · intro amounts hsum
    obtain ⟨s', h1, h2⟩ := withdrawSeq_ok account amounts s (le_of_eq hsum)
    exact ⟨s', h1, by omega⟩

/-- Witness instantiating C9: oracle 1 withdraws 5 out of its
post-aggregation balance in `wFinalState`. -/
theorem c9_withdraw_semantics_witness :
    ∃ s', withdraw wFinalState 1 5 = .ok (s', 1, 5)
      ∧ s'.withdrawable 1 = wFinalState.withdrawable 1 - 5
      ∧ ∀ a, a ≠ 1 → s'.withdrawable a = wFinalState.withdrawable a :=
  (c9_withdraw_semantics wFinalState 1 5).2.1 (by decide)

/-- C10: a request whose consumer callback targets the payment token
itself is rejected with a dedicated error rather than executed, both at
the token entry point and at the request opening operation. -/
theorem c10_no_callback_into_token (s : Coordinator) (sender : Address)
    (amount : Nat) (cs ca said cbFn : Nat) :
    onTokenTransfer s sender amount (.oracleReq cs ca said s.linkToken cbFn)
      = .error .callbackToToken
    ∧ oracleRequest s sender amount said s.linkToken cbFn
      = .error .callbackToToken := by
  constructor
  · simp [onTokenTransfer, oracleRequest, Except.map]
  · simp [oracleRequest]

/-- Witness instantiating C10 at the concrete scenario: a request naming
the token address `linkAddr` as callback target is rejected. -/
theorem c10_no_callback_into_token_witness :
    onTokenTransfer wState 9 P0 (.oracleReq 9 P0 77 wState.linkToken 11)
      = .error .callbackToToken
    ∧ oracleRequest wState 9 P0 77 wState.linkToken 11
      = .error .callbackToToken :=
  c10_no_callback_into_token wState 9 P0 9 P0 77 11

end Chainlink
